import Mathlib

/-!
Verification of the `sqlevfs` page-encryption core (`src/sqlevfs/src/crypto/page.rs`,
`src/sqlevfs/src/crypto/envelope.rs`, `src/sqlevfs/src/keyring.rs`) against its
natural-language specification.

Modelling conventions:
* Byte buffers are `List Nat` (each element a byte value).
* Rust's in-place mutation of a page buffer is modelled by returning the final
  buffer; `InPlaceResult` distinguishes success, an `anyhow` error (carrying the
  buffer as the function leaves it), and a panic.
* Machine arithmetic follows the checked semantics: `usize` subtraction that
  would underflow (`page.len() - reserve` with `page.len() < reserve`) is a
  panic, as is an out-of-bounds slice index.
* AES-256-GCM comes from the external `aes_gcm` crate; it is modelled as an
  abstract AEAD (structure `AEAD`) whose fields state the documented contract
  the code relies on: ciphertext length is plaintext length plus the 16-byte
  tag, decrypt inverts encrypt under the same key and nonce (and returns the
  original length), and with 12-byte nonces distinct nonces give distinct
  ciphertexts (in GCM the block cipher is a permutation of the counter blocks,
  so both the keystream block and the tag mask differ between distinct IVs).
* Randomness (`Dek::generate`, `rand_nonce`, `getrandom`) and file I/O are
  modelled by passing the produced values / outcomes as explicit parameters.
-/

/-! ### Shape lemmas for the in-place page writes -/

/-! ### Normal forms of `encrypt_page` and `decrypt_page` on well-formed input -/

/-! ### Marker extraction on pages of the encrypted shape -/

/-! ### Envelope: wrapping a DEK under a KEK (envelope.rs) -/

/-! ### Keyring (keyring.rs) -/

/-! ### Reachable keyring states (for the cache-coverage invariant) -/

/-- Tag length of AES-256-GCM, `TAG_LEN` in page.rs. -/
def TAG_LEN : Nat := 16

/-- The six marker bytes `b"EVFSv1"` (`MARKER` in page.rs). -/
def MARKER : List Nat := [0x45, 0x56, 0x46, 0x53, 0x76, 0x31]

/-- Marker length, `MARKER_LEN` in page.rs. -/
def MARKER_LEN : Nat := 6

/-- Rust `slice.get(lo..hi)`: `some` of the sub-slice when the range is within
bounds, `none` otherwise. -/
def sliceGet (l : List Nat) (lo hi : Nat) : Option (List Nat) :=
  if lo ≤ hi ∧ hi ≤ l.length then some ((l.take hi).drop lo) else none

/-- Rust `buf[start .. start + src.len()].copy_from_slice(src)` as a pure
function: overwrite `src.length` bytes of `l` starting at `start`. -/
def writeSlice (l : List Nat) (start : Nat) (src : List Nat) : List Nat :=
  l.take start ++ src ++ l.drop (start + src.length)

/-- Abstract AEAD standing for AES-256-GCM from the `aes_gcm` crate.
`enc key nonce plaintext` returns `ciphertext ++ tag`; `dec` returns `none` on
authentication failure.  The fields after `enc`/`dec` are the documented
properties of AES-256-GCM that page.rs and envelope.rs rely on. -/
structure AEAD where
  enc : List Nat → List Nat → List Nat → List Nat
  dec : List Nat → List Nat → List Nat → Option (List Nat)
  enc_length : ∀ k n p, (enc k n p).length = p.length + TAG_LEN
  dec_enc : ∀ k n p, dec k n (enc k n p) = some p
  dec_length : ∀ k n c p, dec k n c = some p → p.length + TAG_LEN = c.length
  enc_nonce_inj : ∀ k n₁ n₂ p, n₁.length = 12 → n₂.length = 12 → n₁ ≠ n₂ →
    enc k n₁ p ≠ enc k n₂ p

/-- Result of a Rust function that mutates a page buffer in place.  `ok` and
`err` carry the buffer as the function leaves it; `panic` models an arithmetic
underflow or out-of-bounds slice index. -/
inductive InPlaceResult where
  | ok (page : List Nat)
  | err (msg : String) (page : List Nat)
  | panic
  deriving DecidableEq, Repr

/-- Little-endian bytes of `u32::to_le_bytes(page_no)`. -/
def u32ToLeBytes (n : Nat) : List Nat :=
  [n % 256, n / 256 % 256, n / 65536 % 256, n / 16777216 % 256]

/-- Deterministic nonce from page number (`page_nonce` in page.rs):
a 12-byte zero array whose first four bytes are overwritten with
`page_no.to_le_bytes()`. -/
def page_nonce (page_no : Nat) : List Nat :=
  writeSlice (List.replicate 12 0) 0 (u32ToLeBytes page_no)

/-- Predicate `is_encrypted_page` of page.rs: false when the reserve is too
small or the buffer is shorter than the reserve; otherwise checks that the
marker bytes sit at `[payload_len + TAG_LEN .. payload_len + TAG_LEN + MARKER_LEN)`. -/
def is_encrypted_page (page : List Nat) (reserve : Nat) : Bool :=
  if reserve < TAG_LEN + MARKER_LEN || page.length < reserve then false
  else
    decide (sliceGet page (page.length - reserve + TAG_LEN)
      (page.length - reserve + TAG_LEN + MARKER_LEN) = some MARKER)

/-- Shallow embedding of `encrypt_page` (page.rs).  Mirrors the source order:
`ensure_reserve`, the `page.len() - reserve` subtraction (panic on underflow),
cipher construction (`Aes256Gcm::new_from_slice` fails unless the key is 32
bytes), AEAD encryption of the payload, then the three `copy_from_slice`
writes (ciphertext body, tag, marker).  The slice-length equalities the Rust
`copy_from_slice` calls require follow from `AEAD.enc_length`
(the source's `debug_assert_eq!(ct_len, payload_len)`). -/
def encrypt_page (A : AEAD) (page : List Nat) (page_no : Nat) (dek : List Nat)
    (reserve : Nat) : InPlaceResult :=
  if reserve < TAG_LEN + MARKER_LEN then
    .err "reserve must be >= tag+marker" page
  else if page.length < reserve then
    .panic
  else
    let payload_len := page.length - reserve
    if dek.length ≠ 32 then .err "invalid key length" page
    else
      let ciphertext := A.enc dek (page_nonce page_no) (page.take payload_len)
      let ct_len := ciphertext.length - TAG_LEN
      let p1 := writeSlice page 0 (ciphertext.take ct_len)
      let p2 := writeSlice p1 payload_len (ciphertext.drop ct_len)
      let p3 := writeSlice p2 (payload_len + TAG_LEN) MARKER
      .ok p3

/-- Shallow embedding of `decrypt_page` (page.rs).  Mirrors the source order:
`ensure_reserve`, the underflow-panicking subtraction, the marker check
(`page.get(mr)` which is `none` out of bounds), cipher construction,
reassembly of the ciphertext+tag buffer, AEAD decryption, then the plaintext
copy-back and zeroing of the tag region.  Every `err` site carries the buffer
unmodified because the source returns before any write. -/
def decrypt_page (A : AEAD) (page : List Nat) (page_no : Nat) (dek : List Nat)
    (reserve : Nat) : InPlaceResult :=
  if reserve < TAG_LEN + MARKER_LEN then
    .err "reserve must be >= tag+marker" page
  else if page.length < reserve then
    .panic
  else
    let payload_len := page.length - reserve
    if sliceGet page (payload_len + TAG_LEN) (payload_len + TAG_LEN + MARKER_LEN)
        ≠ some MARKER then
      .err "missing EVFS marker" page
    else if dek.length ≠ 32 then .err "invalid key length" page
    else
      let buf := page.take payload_len ++
        ((page.take (payload_len + TAG_LEN)).drop payload_len)
      match A.dec dek (page_nonce page_no) buf with
      | none => .err "page decrypt failed" page
      | some plaintext =>
        let p1 := writeSlice page 0 plaintext
        let p2 := writeSlice p1 payload_len (List.replicate TAG_LEN 0)
        .ok p2

/-- Concrete instance of the AEAD contract, used only to instantiate the
abstract theorems at executable inputs: the ciphertext body is the plaintext
and the 16-byte tag embeds the nonce. -/
def modelEnc (_k n p : List Nat) : List Nat :=
  p ++ (n ++ List.replicate 16 0).take 16

/-- Decryption for `modelEnc`: check the embedded-nonce tag, return the body. -/
def modelDec (_k n c : List Nat) : Option (List Nat) :=
  if 16 ≤ c.length ∧ c.drop (c.length - 16) = (n ++ List.replicate 16 0).take 16
  then some (c.take (c.length - 16)) else none

/-- Executable AEAD instance witnessing that the abstract contract is
satisfiable; only used to evaluate theorems at concrete inputs. -/
def modelAead : AEAD where
  enc := modelEnc
  dec := modelDec
  enc_length := by
    intro k n p
    simp [modelEnc, TAG_LEN, List.length_append, List.length_take]
  dec_enc := by
    intro k n p
    have hlen : (modelEnc k n p).length = p.length + 16 := by
      simp [modelEnc, TAG_LEN, List.length_append, List.length_take]
    have hdrop : (p ++ (n ++ List.replicate 16 0).take 16).drop p.length
        = (n ++ List.replicate 16 0).take 16 := List.drop_left' rfl
    have htake : (p ++ (n ++ List.replicate 16 0).take 16).take p.length = p :=
      List.take_left' rfl
    simp only [modelEnc] at hlen ⊢
    simp only [modelDec, hlen, Nat.add_sub_cancel, hdrop, htake]
    simp
  dec_length := by
    intro k n c p h
    simp only [modelDec] at h
    split at h
    · rename_i hcond
      obtain ⟨h16, -⟩ := hcond
      obtain rfl : c.take (c.length - 16) = p := by simpa using h
      simp only [TAG_LEN, List.length_take]
      rw [Nat.min_eq_left (Nat.sub_le _ _)]
      omega
    · exact absurd h (by simp)
  enc_nonce_inj := by
    intro k n₁ n₂ p h₁ h₂ hne h
    apply hne
    have htag : (n₁ ++ List.replicate 16 0).take 16 =
        (n₂ ++ List.replicate 16 0).take 16 :=
      List.append_cancel_left h
    have e₁ : (n₁ ++ List.replicate 16 0).take 16 = n₁ ++ List.replicate 4 0 := by
      have h16 : (16 : Nat) = n₁.length + 4 := by omega
      rw [h16, List.take_append, List.take_replicate, Nat.min_eq_left (by omega)]
    have e₂ : (n₂ ++ List.replicate 16 0).take 16 = n₂ ++ List.replicate 4 0 := by
      have h16 : (16 : Nat) = n₂.length + 4 := by omega
      rw [h16, List.take_append, List.take_replicate, Nat.min_eq_left (by omega)]
    rw [e₁, e₂] at htag
    exact List.append_cancel_right htag

/-- Little-endian 32-bit encoding, written from the spec sentence "the 12-byte
nonce is `le_u32(page_no) || 0^8`", independently of `page_nonce`, for
comparison with the source definition. -/
def leU32spec (n : Nat) : List Nat :=
  (List.range 4).map fun i => n / 256 ^ i % 256

/-- Concrete page used to refute C7 as stated: one payload byte `9`,
reserve 23, so there is a single spare byte, set to `7`. -/
def c7page : List Nat :=
  [9] ++ ((page_nonce 1 ++ List.replicate 4 0) ++ (MARKER ++ [7]))

/-- The buffer `decrypt_page` produces from `c7page`. -/
def c7out : List Nat := [9] ++ (List.replicate 16 0 ++ (MARKER ++ [7]))

/-- Wrapped DEK record as constructed in envelope.rs: AEAD ciphertext of the
32-byte DEK, the 12-byte random nonce, and the KEK identifier.  `KekId` (an
opaque string newtype from the missing keys.rs, per the spec) is inlined as
`String`. -/
structure WrappedDek where
  ciphertext : List Nat
  nonce : List Nat
  kek_id : String
  deriving DecidableEq, Repr

/-- KMS provider capability (`KmsProvider` trait; its declaration is not under
src/, but its signature is fixed by the implementations in kms/local.rs and
the test providers: `get_kek() -> Result<(KekId, Vec<u8>)>` and
`get_kek_by_id(&KekId) -> Result<Vec<u8>>`).  A provider value models one
deterministic provider state; failures are `none`. -/
structure KmsProvider where
  get_kek : Option (String × List Nat)
  get_kek_by_id : String → Option (List Nat)

/-- Shallow embedding of `wrap_dek` (envelope.rs).  `nonce` is the value the
source's `rand_nonce()` (getrandom) would produce. -/
def wrap_dek (A : AEAD) (prov : KmsProvider) (dek : List Nat)
    (nonce : List Nat) : Except String WrappedDek :=
  match prov.get_kek with
  | none => .error "provider get_kek failed"
  | some (kid, kek) =>
    if kek.length ≠ 32 then .error "KEK must be 32 bytes"
    else .ok { ciphertext := A.enc kek nonce dek, nonce := nonce, kek_id := kid }

/-- Shallow embedding of `unwrap_dek` (envelope.rs). -/
def unwrap_dek (A : AEAD) (prov : KmsProvider) (w : WrappedDek) :
    Except String (List Nat) :=
  match prov.get_kek_by_id w.kek_id with
  | none => .error "provider get_kek_by_id failed"
  | some kek =>
    if kek.length ≠ 32 then .error "KEK must be 32 bytes"
    else
      match A.dec kek w.nonce w.ciphertext with
      | none => .error "unwrap decrypt failed"
      | some pt =>
        if pt.length ≠ 32 then .error "DEK plaintext must be 32 bytes"
        else .ok pt

/-- Concrete provider used to instantiate the keyring and envelope theorems:
one KEK of 32 bytes `0xAA` under id "kek-v1". -/
def witProvider : KmsProvider where
  get_kek := some ("kek-v1", List.replicate 32 0xAA)
  get_kek_by_id := fun kid =>
    if kid = "kek-v1" then some (List.replicate 32 0xAA) else none

/-- Key scope (`KeyScope` in the missing keys.rs).  Modelled from the spec:
tagged variant `Database` or `Table(name)`. -/
inductive KeyScope where
  | Database
  | Table (name : String)
  deriving DecidableEq, Repr

/-- Canonical scope string (`scope.to_string()`), modelled from the spec:
`"db"` for `Database`, `"tbl:<name>"` for `Table(name)`. -/
def KeyScope.toKey : KeyScope → String
  | .Database => "db"
  | .Table n => "tbl:" ++ n

/-- Association-list model of `HashMap<String, V>`: lookup. -/
def alLookup {α : Type} (k : String) : List (String × α) → Option α
  | [] => none
  | (k', v) :: t => if k' = k then some v else alLookup k t

/-- Association-list model of `HashMap<String, V>`: insert replaces any
existing binding. -/
def alInsert {α : Type} (k : String) (v : α) :
    List (String × α) → List (String × α)
  | [] => [(k, v)]
  | (k', v') :: t => if k' = k then (k, v) :: t else (k', v') :: alInsert k v t

/-- Association-list model of `HashMap<u32, V>`: lookup. -/
def natLookup {α : Type} (k : Nat) : List (Nat × α) → Option α
  | [] => none
  | (k', v) :: t => if k' = k then some v else natLookup k t

/-- Runtime keyring state (`Keyring` in keyring.rs): plaintext-DEK cache,
mirror of the persisted (wrapped) mapping, and the optional sidecar path.
The provider is passed to each operation rather than stored (it is an
immutable `Arc` field in the source). -/
structure KeyringState where
  cache : List (String × List Nat)
  persisted : List (String × WrappedDek)
  sidecar_path : Option String
  deriving DecidableEq, Repr

/-- Shallow embedding of `Keyring::dek_for` (keyring.rs).  The double-checked
cache lookup of the source collapses to a single lookup in this sequential
model.  `freshDek` is the value `Dek::generate()` would produce and `nonce`
the value `rand_nonce()` would produce on the generate path; `writeOk` is
the outcome of the `std::fs::write` inside `flush`.  The source's `flush`
discards that outcome (`let _ = std::fs::write(path, data);`), so `writeOk`
is deliberately never consulted — mirroring keyring.rs. -/
def dek_for (A : AEAD) (prov : KmsProvider) (freshDek nonce : List Nat)
    (writeOk : Bool) (st : KeyringState) (key : String) :
    Except String (List Nat × KeyringState) :=
  match alLookup key st.cache with
  | some dek => .ok (dek, st)
  | none =>
    match alLookup key st.persisted with
    | some wrapped =>
      match unwrap_dek A prov wrapped with
      | .error e => .error e
      | .ok dek => .ok (dek, { st with cache := alInsert key dek st.cache })
    | none =>
      match wrap_dek A prov freshDek nonce with
      | .error e => .error e
      | .ok wrapped =>
        let st1 := { st with persisted := alInsert key wrapped st.persisted }
        -- flush's write outcome `writeOk` is ignored, as in the source
        .ok (freshDek, { st1 with cache := alInsert key freshDek st1.cache })

/-- Shallow embedding of `Keyring::dek_for_page` (keyring.rs): resolve the
scope from the optional page→scope map, defaulting to `Database`, then
delegate to `dek_for`. -/
def dek_for_page (A : AEAD) (prov : KmsProvider) (freshDek nonce : List Nat)
    (writeOk : Bool) (st : KeyringState) (page_no : Nat)
    (page_scope_map : Option (List (Nat × KeyScope))) :
    Except String (List Nat × KeyringState) :=
  let scope := (page_scope_map.bind fun m => natLookup page_no m).getD
    KeyScope.Database
  dek_for A prov freshDek nonce writeOk st scope.toKey

/-- Loop body of `Keyring::rewrap_all`: wrap each cached DEK (the i-th wrap
consuming `nonceAt i` as its random nonce) and insert it into the persisted
mirror; on a wrap error the source's `?` returns early, leaving the inserts
made so far (the error, if any, is the second component). -/
def rewrapLoop (A : AEAD) (prov : KmsProvider) (nonceAt : Nat → List Nat) :
    List (String × List Nat) → Nat → List (String × WrappedDek) →
    List (String × WrappedDek) × Option String
  | [], _, pers => (pers, none)
  | (k, dek) :: rest, i, pers =>
    match wrap_dek A prov dek (nonceAt i) with
    | .error e => (pers, some e)
    | .ok w => rewrapLoop A prov nonceAt rest (i + 1) (alInsert k w pers)

/-- Shallow embedding of `Keyring::rewrap_all` (keyring.rs); the final flush
ignores `writeOk` as in `dek_for`. -/
def rewrap_all (A : AEAD) (prov : KmsProvider) (nonceAt : Nat → List Nat)
    (writeOk : Bool) (st : KeyringState) : Except String KeyringState :=
  match rewrapLoop A prov nonceAt st.cache 0 st.persisted with
  | (_, some e) => .error e
  | (pers, none) => .ok { st with persisted := pers }

/-- Shallow embedding of `Keyring::set_sidecar_path` (keyring.rs).  `sidecar`
stands for `db_path.with_extension("evfs-keyring")` and `loaded` for the
result of reading and decoding an existing sidecar file (`none` when the
file is missing, unreadable or undecodable; in that case the persisted
mirror is left as it was). -/
def set_sidecar_path (st : KeyringState) (sidecar : String)
    (loaded : Option (List (String × WrappedDek))) : KeyringState :=
  { st with
    persisted := loaded.getD st.persisted,
    sidecar_path := some sidecar }

/-- One keyring operation, with the values its side effects would produce
passed explicitly: `freshDek`/`nonce` for `Dek::generate` / `rand_nonce`,
`nonceAt` as the nonce supply of `rewrap_all`, `writeOk` for the flush write
outcome (ignored by the source), and `loaded` for the parsed contents of an
existing sidecar file in `set_sidecar_path`. -/
inductive KOp where
  | dekFor (key : String) (freshDek nonce : List Nat) (writeOk : Bool)
  | dekForPage (page_no : Nat) (map : Option (List (Nat × KeyScope)))
      (freshDek nonce : List Nat) (writeOk : Bool)
  | rewrapAll (nonceAt : Nat → List Nat) (writeOk : Bool)
  | setSidecarPath (sidecar : String)
      (loaded : Option (List (String × WrappedDek)))

/-- Effect of one operation on the keyring state.  An operation that returns
an error leaves the state as the source leaves it: unchanged for `dek_for` /
`dek_for_page` (every mutation happens after the fallible steps), and with
the inserts made before the failing wrap for `rewrap_all`. -/
def kstep (A : AEAD) (prov : KmsProvider) (st : KeyringState) :
    KOp → KeyringState
  | .dekFor key freshDek nonce writeOk =>
    match dek_for A prov freshDek nonce writeOk st key with
    | .ok (_, st') => st'
    | .error _ => st
  | .dekForPage page_no map freshDek nonce writeOk =>
    match dek_for_page A prov freshDek nonce writeOk st page_no map with
    | .ok (_, st') => st'
    | .error _ => st
  | .rewrapAll nonceAt _ =>
    { st with persisted := (rewrapLoop A prov nonceAt st.cache 0 st.persisted).1 }
  | .setSidecarPath sidecar loaded => set_sidecar_path st sidecar loaded

/-- Run a sequence of keyring operations. -/
def kexec (A : AEAD) (prov : KmsProvider) :
    KeyringState → List KOp → KeyringState
  | st, [] => st
  | st, op :: ops => kexec A prov (kstep A prov st op) ops

/-- The spec's keyring invariant: every scope in the DEK cache has a matching
wrapped entry in the persisted mirror. -/
def cacheCovered (st : KeyringState) : Prop :=
  ∀ k, (alLookup k st.cache).isSome = true →
    (alLookup k st.persisted).isSome = true

/-- Side condition under which an operation preserves `cacheCovered`: only
`set_sidecar_path` needs one — a sidecar mapping it loads must cover every
scope cached at that moment (loading nothing is always fine). -/
def goodOp (st : KeyringState) : KOp → Prop
  | .setSidecarPath _ loaded =>
    ∀ m, loaded = some m → ∀ k, (alLookup k st.cache).isSome = true →
      (alLookup k m).isSome = true
  | _ => True

/-- A trace whose every `set_sidecar_path` satisfies `goodOp` at the state it
executes in. -/
inductive GoodTrace (A : AEAD) (prov : KmsProvider) :
    KeyringState → List KOp → Prop
  | nil (st : KeyringState) : GoodTrace A prov st []
  | cons (st : KeyringState) (op : KOp) (ops : List KOp) :
      goodOp st op → GoodTrace A prov (kstep A prov st op) ops →
      GoodTrace A prov st (op :: ops)

theorem writeSlice_form (pre mid post src : List Nat)
    (h : src.length = mid.length) :
    writeSlice (pre ++ (mid ++ post)) pre.length src = pre ++ (src ++ post) := by
  unfold writeSlice
  rw [h, List.take_left' rfl, List.drop_append, List.drop_left' rfl,
    List.append_assoc]

theorem write2_form (page b t : List Nat) (payload : Nat)
    (hb : b.length = payload) (ht : t.length = TAG_LEN)
    (hp : payload + TAG_LEN ≤ page.length) :
    writeSlice (writeSlice page 0 b) payload t
      = b ++ (t ++ page.drop (payload + TAG_LEN)) := by
  have h1 : writeSlice page 0 b = b ++ page.drop payload := by
    simp [writeSlice, hb]
  have hmid : ((page.drop payload).take TAG_LEN).length = TAG_LEN := by
    rw [List.length_take, List.length_drop, Nat.min_eq_left (by omega)]
  have hdd : (page.drop payload).drop TAG_LEN = page.drop (payload + TAG_LEN) :=
    List.drop_drop _ _ _
  calc writeSlice (writeSlice page 0 b) payload t
      = writeSlice (b ++ ((page.drop payload).take TAG_LEN
          ++ (page.drop payload).drop TAG_LEN)) b.length t := by
        rw [h1, List.take_append_drop, hb]
    _ = b ++ (t ++ (page.drop payload).drop TAG_LEN) :=
        writeSlice_form _ _ _ _ (by rw [ht, hmid])
    _ = b ++ (t ++ page.drop (payload + TAG_LEN)) := by rw [hdd]

theorem write3_form (page b t : List Nat) (payload : Nat)
    (hb : b.length = payload) (ht : t.length = TAG_LEN)
    (hp : payload + TAG_LEN + MARKER_LEN ≤ page.length) :
    writeSlice (writeSlice (writeSlice page 0 b) payload t)
        (payload + TAG_LEN) MARKER
      = b ++ (t ++ (MARKER ++ page.drop (payload + TAG_LEN + MARKER_LEN))) := by
  have h2 := write2_form page b t payload hb ht (by omega)
  have hD : MARKER_LEN ≤ (page.drop (payload + TAG_LEN)).length := by
    rw [List.length_drop]; omega
  have hmid : ((page.drop (payload + TAG_LEN)).take MARKER_LEN).length
      = MARKER_LEN := by
    rw [List.length_take, List.length_drop, Nat.min_eq_left (by omega)]
  have hdd : (page.drop (payload + TAG_LEN)).drop MARKER_LEN
      = page.drop (payload + TAG_LEN + MARKER_LEN) := List.drop_drop _ _ _
  have hbt : (b ++ t).length = payload + TAG_LEN := by
    rw [List.length_append, hb, ht]
  calc writeSlice (writeSlice (writeSlice page 0 b) payload t)
        (payload + TAG_LEN) MARKER
      = writeSlice ((b ++ t) ++ ((page.drop (payload + TAG_LEN)).take MARKER_LEN
          ++ (page.drop (payload + TAG_LEN)).drop MARKER_LEN)) (b ++ t).length
          MARKER := by
        rw [h2, List.take_append_drop, List.append_assoc, hbt]
    _ = (b ++ t) ++ (MARKER ++ (page.drop (payload + TAG_LEN)).drop MARKER_LEN) :=
        writeSlice_form _ _ _ _ (by rw [hmid]; rfl)
    _ = b ++ (t ++ (MARKER ++ page.drop (payload + TAG_LEN + MARKER_LEN))) := by
        rw [hdd, List.append_assoc]

theorem encrypt_page_eq (A : AEAD) (page dek : List Nat) (pn reserve : Nat)
    (hres : TAG_LEN + MARKER_LEN ≤ reserve) (hlen : reserve ≤ page.length)
    (hdek : dek.length = 32) :
    encrypt_page A page pn dek reserve
      = .ok (A.enc dek (page_nonce pn) (page.take (page.length - reserve))
          ++ (MARKER ++ page.drop (page.length - reserve + TAG_LEN + MARKER_LEN))) := by
  have hct : (A.enc dek (page_nonce pn) (page.take (page.length - reserve))).length
      = (page.length - reserve) + TAG_LEN := by
    rw [A.enc_length, List.length_take, Nat.min_eq_left (by omega)]
  have hb : ((A.enc dek (page_nonce pn) (page.take (page.length - reserve))).take
      (page.length - reserve)).length = page.length - reserve := by
    rw [List.length_take, Nat.min_eq_left (by rw [hct]; omega)]
  have ht : ((A.enc dek (page_nonce pn) (page.take (page.length - reserve))).drop
      (page.length - reserve)).length = TAG_LEN := by
    rw [List.length_drop, hct]; omega
  simp only [encrypt_page]
  rw [if_neg (by omega), if_neg (by omega), if_neg (by simp [hdek])]
  rw [hct, Nat.add_sub_cancel]
  rw [write3_form _ _ _ _ hb ht (by omega)]
  rw [← List.append_assoc, List.take_append_drop]

theorem decrypt_page_eq (A : AEAD) (page dek pt : List Nat) (pn reserve : Nat)
    (hres : TAG_LEN + MARKER_LEN ≤ reserve) (hlen : reserve ≤ page.length)
    (hdek : dek.length = 32)
    (hmk : sliceGet page (page.length - reserve + TAG_LEN)
        (page.length - reserve + TAG_LEN + MARKER_LEN) = some MARKER)
    (hdec : A.dec dek (page_nonce pn)
        (page.take (page.length - reserve) ++
          ((page.take (page.length - reserve + TAG_LEN)).drop (page.length - reserve)))
        = some pt) :
    decrypt_page A page pn dek reserve
      = .ok (pt ++ (List.replicate TAG_LEN 0
          ++ page.drop (page.length - reserve + TAG_LEN))) := by
  have hbuf : (page.take (page.length - reserve) ++
      ((page.take (page.length - reserve + TAG_LEN)).drop (page.length - reserve))).length
      = (page.length - reserve) + TAG_LEN := by
    rw [List.length_append, List.length_take, List.length_drop, List.length_take,
      Nat.min_eq_left (by omega), Nat.min_eq_left (by omega)]
    omega
  have hpt : pt.length = page.length - reserve := by
    have := A.dec_length _ _ _ _ hdec
    rw [hbuf] at this
    omega
  simp only [decrypt_page]
  rw [if_neg (by omega), if_neg (by omega), if_neg (by simp [hmk]),
    if_neg (by simp [hdek]), hdec]
  show InPlaceResult.ok (writeSlice (writeSlice page 0 pt) (page.length - reserve)
    (List.replicate TAG_LEN 0)) = _
  rw [write2_form _ _ _ _ hpt (by rw [List.length_replicate]) (by omega)]

theorem sliceGet_marker (front spare : List Nat) (payload : Nat)
    (hf : front.length = payload + TAG_LEN) :
    sliceGet (front ++ (MARKER ++ spare)) (payload + TAG_LEN)
      (payload + TAG_LEN + MARKER_LEN) = some MARKER := by
  have hM : MARKER.length = MARKER_LEN := by rfl
  have hfm : (front ++ MARKER).length = payload + TAG_LEN + MARKER_LEN := by
    rw [List.length_append, hf, hM]
  have h1 : (front ++ (MARKER ++ spare)).take (payload + TAG_LEN + MARKER_LEN)
      = front ++ MARKER := by
    rw [← List.append_assoc]
    exact List.take_left' hfm
  have h2 : (front ++ MARKER).drop (payload + TAG_LEN) = MARKER :=
    List.drop_left' hf
  have hL : payload + TAG_LEN + MARKER_LEN ≤ (front ++ (MARKER ++ spare)).length := by
    rw [List.length_append, List.length_append, hf, hM]
    omega
  unfold sliceGet
  rw [if_pos ⟨by omega, hL⟩, h1, h2]

theorem is_encrypted_page_form (front spare : List Nat) (reserve : Nat)
    (hsp : reserve = TAG_LEN + MARKER_LEN + spare.length)
    (hf : TAG_LEN ≤ front.length) :
    is_encrypted_page (front ++ (MARKER ++ spare)) reserve = true := by
  have hM : MARKER.length = MARKER_LEN := rfl
  have hL : (front ++ (MARKER ++ spare)).length
      = front.length + MARKER_LEN + spare.length := by
    rw [List.length_append, List.length_append, hM]; omega
  have hpay : (front ++ (MARKER ++ spare)).length - reserve
      = front.length - TAG_LEN := by omega
  have hf' : front.length = (front.length - TAG_LEN) + TAG_LEN := by omega
  unfold is_encrypted_page
  rw [if_neg (by
    simp only [Bool.or_eq_true, decide_eq_true_eq, not_or, Nat.not_lt]
    omega)]
  rw [hpay, sliceGet_marker front spare (front.length - TAG_LEN) hf']
  simp

/-- C1: for every AEAD satisfying the AES-256-GCM contract, 32-byte DEK, page
number, reserve ≥ 22 and page buffer of length ≥ reserve, `encrypt_page`
succeeds, `decrypt_page` on the result succeeds, the payload bytes
`page[0 .. P-R)` round-trip to the original plaintext, and
`is_encrypted_page` returns true after the encrypt and after the decrypt. -/
theorem C1_page_round_trip (A : AEAD) (page dek : List Nat) (pn reserve : Nat)
    (hres : 22 ≤ reserve) (hlen : reserve ≤ page.length)
    (hdek : dek.length = 32) :
    ∃ p1 p2, encrypt_page A page pn dek reserve = .ok p1 ∧
      decrypt_page A p1 pn dek reserve = .ok p2 ∧
      p2.take (page.length - reserve) = page.take (page.length - reserve) ∧
      is_encrypted_page p1 reserve = true ∧
      is_encrypted_page p2 reserve = true := by
  have hres' : TAG_LEN + MARKER_LEN ≤ reserve := by
    simp only [TAG_LEN, MARKER_LEN]; omega
  have hTM : TAG_LEN + MARKER_LEN = 22 := rfl
  have hct : (A.enc dek (page_nonce pn) (page.take (page.length - reserve))).length
      = (page.length - reserve) + TAG_LEN := by
    rw [A.enc_length, List.length_take, Nat.min_eq_left (by omega)]
  have hsp : (page.drop (page.length - reserve + TAG_LEN + MARKER_LEN)).length
      = reserve - (TAG_LEN + MARKER_LEN) := by
    rw [List.length_drop]; omega
  refine ⟨A.enc dek (page_nonce pn) (page.take (page.length - reserve))
      ++ (MARKER ++ page.drop (page.length - reserve + TAG_LEN + MARKER_LEN)),
    page.take (page.length - reserve) ++ (List.replicate TAG_LEN 0
      ++ (MARKER ++ page.drop (page.length - reserve + TAG_LEN + MARKER_LEN))),
    encrypt_page_eq A page dek pn reserve hres' hlen hdek, ?_, ?_, ?_, ?_⟩
  case _ =>
    -- decrypt succeeds on the encrypted page and leaves the expected bytes
    set payload := page.length - reserve with hpaydef
    set ct := A.enc dek (page_nonce pn) (page.take payload) with hctdef
    set spare := page.drop (payload + TAG_LEN + MARKER_LEN) with hspdef
    have hM : MARKER.length = MARKER_LEN := rfl
    have hp1len : (ct ++ (MARKER ++ spare)).length = page.length := by
      rw [List.length_append, List.length_append, hct, hM, hsp]
      omega
    have hp1pay : (ct ++ (MARKER ++ spare)).length - reserve = payload := by
      rw [hp1len]
    have e1 : (ct ++ (MARKER ++ spare)).take (payload + TAG_LEN) = ct :=
      List.take_left' hct
    have e2 : (ct ++ (MARKER ++ spare)).take payload = ct.take payload := by
      have h := List.take_take payload ct.length (ct ++ (MARKER ++ spare))
      rw [List.take_left' rfl, Nat.min_eq_left (by omega)] at h
      exact h.symm
    have e3 : (ct ++ (MARKER ++ spare)).drop (payload + TAG_LEN)
        = MARKER ++ spare := List.drop_left' hct
    have hmk : sliceGet (ct ++ (MARKER ++ spare))
        ((ct ++ (MARKER ++ spare)).length - reserve + TAG_LEN)
        ((ct ++ (MARKER ++ spare)).length - reserve + TAG_LEN + MARKER_LEN)
        = some MARKER := by
      rw [hp1pay]
      exact sliceGet_marker ct spare payload hct
    have hbuf : (ct ++ (MARKER ++ spare)).take ((ct ++ (MARKER ++ spare)).length - reserve)
        ++ (((ct ++ (MARKER ++ spare)).take ((ct ++ (MARKER ++ spare)).length - reserve + TAG_LEN)).drop
          ((ct ++ (MARKER ++ spare)).length - reserve)) = ct := by
      rw [hp1pay, e1, e2, List.take_append_drop]
    have hdec : A.dec dek (page_nonce pn)
        ((ct ++ (MARKER ++ spare)).take ((ct ++ (MARKER ++ spare)).length - reserve)
          ++ (((ct ++ (MARKER ++ spare)).take ((ct ++ (MARKER ++ spare)).length - reserve + TAG_LEN)).drop
            ((ct ++ (MARKER ++ spare)).length - reserve)))
        = some (page.take payload) := by
      rw [hbuf, hctdef]
      exact A.dec_enc dek (page_nonce pn) (page.take payload)
    have := decrypt_page_eq A (ct ++ (MARKER ++ spare)) dek (page.take payload)
      pn reserve hres' (by omega) hdek hmk hdec
    rw [this, hp1pay, e3]
  case _ =>
    have hpt : (page.take (page.length - reserve)).length = page.length - reserve := by
      rw [List.length_take, Nat.min_eq_left (by omega)]
    exact List.take_left' hpt
  case _ =>
    exact is_encrypted_page_form _ _ reserve (by omega) (by rw [hct]; omega)
  case _ =>
    rw [← List.append_assoc]
    refine is_encrypted_page_form _ _ reserve (by omega) ?_
    rw [List.length_append, List.length_replicate]
    omega

/-- Witness for C1 at a concrete input: page of 24 bytes `7`, DEK of 32 bytes
`1`, page number 3, reserve 22. -/
theorem C1_page_round_trip_witness :
    ∃ p1 p2, encrypt_page modelAead (List.replicate 24 7) 3
        (List.replicate 32 1) 22 = .ok p1 ∧
      decrypt_page modelAead p1 3 (List.replicate 32 1) 22 = .ok p2 ∧
      p2.take ((List.replicate 24 7 : List Nat).length - 22)
        = (List.replicate 24 7 : List Nat).take ((List.replicate 24 7 : List Nat).length - 22) ∧
      is_encrypted_page p1 22 = true ∧
      is_encrypted_page p2 22 = true :=
  C1_page_round_trip modelAead (List.replicate 24 7) (List.replicate 32 1) 3 22
    (by decide) (by decide) (by decide)

/-- C2: `encrypt_page` is deterministic — the embedding is a pure function of
`(page, page_no, dek, reserve)`, the source threads no randomness — and the
nonce it derives is exactly the little-endian 32-bit encoding of the page
number followed by eight zero bytes. -/
theorem C2_encrypt_deterministic (A : AEAD) (page dek : List Nat)
    (pn reserve : Nat) :
    encrypt_page A page pn dek reserve = encrypt_page A page pn dek reserve ∧
    page_nonce pn = leU32spec pn ++ List.replicate 8 0 := by
  refine ⟨rfl, ?_⟩
  show writeSlice (List.replicate 12 0) 0 (u32ToLeBytes pn) = _
  simp only [writeSlice, u32ToLeBytes, leU32spec, List.take_zero, Nat.zero_add,
    List.length_cons, List.length_nil, List.drop_replicate, List.nil_append]
  norm_num [List.range_succ]

/-- Inversion of a successful `decrypt_page`: all guards passed and the final
buffer is plaintext, then sixteen zero bytes, then the untouched remainder of
the input page. -/
theorem decrypt_page_ok_inv (A : AEAD) (page dek p2 : List Nat)
    (pn reserve : Nat)
    (h : decrypt_page A page pn dek reserve = .ok p2) :
    TAG_LEN + MARKER_LEN ≤ reserve ∧ reserve ≤ page.length ∧
    sliceGet page (page.length - reserve + TAG_LEN)
      (page.length - reserve + TAG_LEN + MARKER_LEN) = some MARKER ∧
    ∃ pt, pt.length = page.length - reserve ∧
      p2 = pt ++ (List.replicate TAG_LEN 0
        ++ page.drop (page.length - reserve + TAG_LEN)) := by
  simp only [decrypt_page] at h
  split at h
  · exact absurd h (by simp)
  · split at h
    · exact absurd h (by simp)
    · split at h
      · exact absurd h (by simp)
      · split at h
        · exact absurd h (by simp)
        · rename_i hr1 hr2 hmk hdk
          split at h
          · exact absurd h (by simp)
          · rename_i pt hdec
            rw [Nat.not_lt] at hr1 hr2
            rw [not_not] at hmk
            have hbuf : (page.take (page.length - reserve) ++
                ((page.take (page.length - reserve + TAG_LEN)).drop
                  (page.length - reserve))).length
                = (page.length - reserve) + TAG_LEN := by
              rw [List.length_append, List.length_take, List.length_drop,
                List.length_take, Nat.min_eq_left (by omega),
                Nat.min_eq_left (by simp only [TAG_LEN, MARKER_LEN] at hr1 ⊢; omega)]
              simp only [TAG_LEN, MARKER_LEN] at hr1 ⊢
              omega
            have hpt : pt.length = page.length - reserve := by
              have := A.dec_length _ _ _ _ hdec
              rw [hbuf] at this
              omega
            refine ⟨hr1, hr2, hmk, pt, hpt, ?_⟩
            have hw := write2_form page pt (List.replicate TAG_LEN 0)
              (page.length - reserve) hpt (List.length_replicate _ _)
              (by simp only [TAG_LEN, MARKER_LEN] at hr1 ⊢; omega)
            rw [InPlaceResult.ok.injEq] at h
            rw [← h, hw]

/-- C7 (amended): after a successful `decrypt_page` the 16-byte tag region is
zeroed and the marker `EVFSv1` remains, but the reserved spare bytes
`page[P-R+22 .. P)` are left unchanged from the input page — they are zero
only when they already were; the source never writes them. -/
theorem C7_decrypt_reserved_region (A : AEAD) (page dek p2 : List Nat)
    (pn reserve : Nat)
    (h : decrypt_page A page pn dek reserve = .ok p2) :
    (p2.drop (page.length - reserve)).take TAG_LEN
      = List.replicate TAG_LEN 0 ∧
    (p2.drop (page.length - reserve + TAG_LEN)).take MARKER_LEN = MARKER ∧
    p2.drop (page.length - reserve + TAG_LEN + MARKER_LEN)
      = page.drop (page.length - reserve + TAG_LEN + MARKER_LEN) := by
  obtain ⟨hres, hlen, hmk, pt, hpt, rfl⟩ := decrypt_page_ok_inv A page dek p2 pn reserve h
  have hz : (List.replicate TAG_LEN (0 : Nat)).length = TAG_LEN :=
    List.length_replicate _ _
  have hd1 : (pt ++ (List.replicate TAG_LEN 0
      ++ page.drop (page.length - reserve + TAG_LEN))).drop (page.length - reserve)
      = List.replicate TAG_LEN 0 ++ page.drop (page.length - reserve + TAG_LEN) :=
    List.drop_left' hpt
  have hd2 : (pt ++ (List.replicate TAG_LEN 0
      ++ page.drop (page.length - reserve + TAG_LEN))).drop
        (page.length - reserve + TAG_LEN)
      = page.drop (page.length - reserve + TAG_LEN) := by
    rw [← List.append_assoc]
    exact List.drop_left' (by rw [List.length_append, hpt, hz])
  -- the marker is in the untouched remainder, recovered from the guard
  have hmark : (page.drop (page.length - reserve + TAG_LEN)).take MARKER_LEN
      = MARKER := by
    unfold sliceGet at hmk
    rw [if_pos] at hmk
    · have := Option.some.inj hmk
      rw [List.drop_take] at this
      have harith : page.length - reserve + TAG_LEN + MARKER_LEN
          - (page.length - reserve + TAG_LEN) = MARKER_LEN := by omega
      rw [harith] at this
      exact this
    · constructor
      · omega
      · simp only [TAG_LEN, MARKER_LEN] at hres ⊢
        omega
  refine ⟨?_, ?_, ?_⟩
  · rw [hd1]
    exact List.take_left' hz
  · rw [hd2]
    exact hmark
  · have : page.length - reserve + TAG_LEN + MARKER_LEN
        = (page.length - reserve + TAG_LEN) + MARKER_LEN := rfl
    rw [this, ← List.drop_drop, hd2, List.drop_drop]

/-- Counterexample to C7 as stated: `decrypt_page` succeeds on `c7page`
(reserve 23, so byte 23 is a reserved spare byte) yet the spare byte is `7`,
not zero, after the decrypt. -/
theorem C7_counterexample :
    decrypt_page modelAead c7page 1 (List.replicate 32 0) 23 = .ok c7out ∧
    c7out.drop 23 = [7] ∧ ([7] : List Nat) ≠ List.replicate 1 0 := by
  refine ⟨by decide, by decide, by decide⟩

/-- Witness for C7 (amended) at the concrete input `c7page`. -/
theorem C7_decrypt_reserved_region_witness :
    (c7out.drop (c7page.length - 23)).take TAG_LEN
      = List.replicate TAG_LEN 0 ∧
    (c7out.drop (c7page.length - 23 + TAG_LEN)).take MARKER_LEN = MARKER ∧
    c7out.drop (c7page.length - 23 + TAG_LEN + MARKER_LEN)
      = c7page.drop (c7page.length - 23 + TAG_LEN + MARKER_LEN) :=
  C7_decrypt_reserved_region modelAead c7page (List.replicate 32 0) c7out 1 23
    (by decide)

/-- C4: `decrypt_page` returns an error whenever the reserve is below 22
(any buffer), and whenever the marker bytes are absent from
`[P-R+16 .. P-R+22)` on a buffer of length ≥ R (in particular on an all-zero
page); and every error return leaves the page buffer byte-for-byte
unchanged. -/
theorem C4_decrypt_error_cases (A : AEAD) (page dek : List Nat)
    (pn reserve : Nat) :
    (reserve < 22 →
      ∃ m, decrypt_page A page pn dek reserve = .err m page) ∧
    (22 ≤ reserve → reserve ≤ page.length →
      sliceGet page (page.length - reserve + TAG_LEN)
          (page.length - reserve + TAG_LEN + MARKER_LEN) ≠ some MARKER →
      ∃ m, decrypt_page A page pn dek reserve = .err m page) ∧
    (∀ m p', decrypt_page A page pn dek reserve = .err m p' → p' = page) := by
  have hTM : TAG_LEN + MARKER_LEN = 22 := rfl
  refine ⟨?_, ?_, ?_⟩
  · intro hlt
    refine ⟨"reserve must be >= tag+marker", ?_⟩
    simp only [decrypt_page]
    rw [if_pos (by omega)]
  · intro h22 hle hmk
    refine ⟨"missing EVFS marker", ?_⟩
    simp only [decrypt_page]
    rw [if_neg (by omega), if_neg (by omega), if_pos hmk]
  · intro m p' h
    simp only [decrypt_page] at h
    split at h
    · exact (InPlaceResult.err.inj h).2.symm
    · split at h
      · exact absurd h (by simp)
      · split at h
        · exact (InPlaceResult.err.inj h).2.symm
        · split at h
          · exact (InPlaceResult.err.inj h).2.symm
          · split at h
            · exact (InPlaceResult.err.inj h).2.symm
            · exact absurd h (by simp)

/-- Witness for C4 at concrete inputs: a 32-byte all-zero page with reserve 22
has no marker so decrypt fails leaving the page unchanged; reserve 10 fails
the reserve check. -/
theorem C4_decrypt_error_cases_witness :
    (∃ m, decrypt_page modelAead (List.replicate 32 0) 1
      (List.replicate 32 1) 22 = .err m (List.replicate 32 0)) ∧
    (∃ m, decrypt_page modelAead (List.replicate 32 0) 1
      (List.replicate 32 1) 10 = .err m (List.replicate 32 0)) :=
  ⟨(C4_decrypt_error_cases modelAead (List.replicate 32 0) (List.replicate 32 1)
      1 22).2.1 (by decide) (by decide) (by decide),
   (C4_decrypt_error_cases modelAead (List.replicate 32 0) (List.replicate 32 1)
      1 10).1 (by decide)⟩

/-- C10: with a valid reserve, both page operations panic (underflow /
out-of-bounds, under checked arithmetic semantics) exactly when the buffer is
shorter than the reserve — they never panic on buffers of length ≥ reserve —
while `is_encrypted_page` just returns false on a short buffer. -/
theorem C10_short_buffer_panics (A : AEAD) (page dek : List Nat)
    (pn reserve : Nat) :
    (22 ≤ reserve → page.length < reserve →
      encrypt_page A page pn dek reserve = .panic ∧
      decrypt_page A page pn dek reserve = .panic) ∧
    (reserve ≤ page.length →
      encrypt_page A page pn dek reserve ≠ .panic ∧
      decrypt_page A page pn dek reserve ≠ .panic) ∧
    (page.length < reserve → is_encrypted_page page reserve = false) := by
  have hTM : TAG_LEN + MARKER_LEN = 22 := rfl
  refine ⟨?_, ?_, ?_⟩
  · intro h22 hshort
    constructor
    · simp only [encrypt_page]
      rw [if_neg (by omega), if_pos hshort]
    · simp only [decrypt_page]
      rw [if_neg (by omega), if_pos hshort]
  · intro hle
    constructor
    · simp only [encrypt_page]
      split
      · simp
      · split
        · omega
        · split
          · simp
          · simp
    · simp only [decrypt_page]
      split
      · simp
      · split
        · omega
        · split
          · simp
          · split
            · simp
            · split
              · simp
              · simp
  · intro hshort
    simp only [is_encrypted_page]
    rw [if_pos]
    simp only [Bool.or_eq_true, decide_eq_true_eq]
    right
    exact hshort

/-- Witness for C10 at concrete inputs: a 10-byte buffer with reserve 22
panics in both operations and is not an encrypted page; a 32-byte buffer with
reserve 22 panics in neither. -/
theorem C10_short_buffer_panics_witness :
    (encrypt_page modelAead (List.replicate 10 3) 1 (List.replicate 32 1) 22
        = .panic ∧
     decrypt_page modelAead (List.replicate 10 3) 1 (List.replicate 32 1) 22
        = .panic) ∧
    (encrypt_page modelAead (List.replicate 32 3) 1 (List.replicate 32 1) 22
        ≠ .panic ∧
     decrypt_page modelAead (List.replicate 32 3) 1 (List.replicate 32 1) 22
        ≠ .panic) ∧
    is_encrypted_page (List.replicate 10 3) 22 = false :=
  ⟨(C10_short_buffer_panics modelAead (List.replicate 10 3)
      (List.replicate 32 1) 1 22).1 (by decide) (by decide),
   (C10_short_buffer_panics modelAead (List.replicate 32 3)
      (List.replicate 32 1) 1 22).2.1 (by decide),
   (C10_short_buffer_panics modelAead (List.replicate 10 3)
      (List.replicate 32 1) 1 22).2.2 (by decide)⟩

theorem wrap_dek_ok (A : AEAD) (prov : KmsProvider) (dek nonce kek : List Nat)
    (kid : String) (hk : prov.get_kek = some (kid, kek))
    (hkl : kek.length = 32) :
    wrap_dek A prov dek nonce
      = .ok ⟨A.enc kek nonce dek, nonce, kid⟩ := by
  simp only [wrap_dek, hk]
  rw [if_neg (by simp [hkl])]

theorem unwrap_wrap (A : AEAD) (prov : KmsProvider) (dek nonce kek : List Nat)
    (kid : String) (hkl : kek.length = 32)
    (hki : prov.get_kek_by_id kid = some kek) (hdek : dek.length = 32) :
    unwrap_dek A prov ⟨A.enc kek nonce dek, nonce, kid⟩ = .ok dek := by
  simp only [unwrap_dek, hki]
  rw [if_neg (by simp [hkl]), A.dec_enc]
  show (if dek.length ≠ 32 then Except.error "DEK plaintext must be 32 bytes"
    else Except.ok dek) = Except.ok dek
  rw [if_neg (by simp [hdek])]

/-- C5: with a provider whose `get_kek` / `get_kek_by_id` consistently return
the same 32-byte KEK under the same id, wrapping a 32-byte DEK with two
distinct 12-byte nonces succeeds with 48-byte ciphertexts and 12-byte nonces,
both records unwrap to the original DEK, and the two records have different
nonces and different ciphertexts. -/
theorem C5_wrap_unwrap (A : AEAD) (prov : KmsProvider)
    (dek n1 n2 kek : List Nat) (kid : String)
    (hdek : dek.length = 32)
    (hk : prov.get_kek = some (kid, kek)) (hkl : kek.length = 32)
    (hki : prov.get_kek_by_id kid = some kek)
    (hn1 : n1.length = 12) (hn2 : n2.length = 12) (hne : n1 ≠ n2) :
    ∃ w1 w2, wrap_dek A prov dek n1 = .ok w1 ∧
      wrap_dek A prov dek n2 = .ok w2 ∧
      w1.ciphertext.length = 48 ∧ w1.nonce.length = 12 ∧
      unwrap_dek A prov w1 = .ok dek ∧ unwrap_dek A prov w2 = .ok dek ∧
      w1.nonce ≠ w2.nonce ∧ w1.ciphertext ≠ w2.ciphertext := by
  refine ⟨⟨A.enc kek n1 dek, n1, kid⟩, ⟨A.enc kek n2 dek, n2, kid⟩,
    wrap_dek_ok A prov dek n1 kek kid hk hkl,
    wrap_dek_ok A prov dek n2 kek kid hk hkl, ?_, hn1,
    unwrap_wrap A prov dek n1 kek kid hkl hki hdek,
    unwrap_wrap A prov dek n2 kek kid hkl hki hdek, hne,
    A.enc_nonce_inj kek n1 n2 dek hn1 hn2 hne⟩
  rw [A.enc_length, hdek]
  decide

/-- Witness for C5 at a concrete input: DEK of 32 bytes `5`, nonces
`replicate 12 1` and `replicate 12 2`. -/
theorem C5_wrap_unwrap_witness :
    ∃ w1 w2, wrap_dek modelAead witProvider (List.replicate 32 5)
        (List.replicate 12 1) = .ok w1 ∧
      wrap_dek modelAead witProvider (List.replicate 32 5)
        (List.replicate 12 2) = .ok w2 ∧
      w1.ciphertext.length = 48 ∧ w1.nonce.length = 12 ∧
      unwrap_dek modelAead witProvider w1 = .ok (List.replicate 32 5) ∧
      unwrap_dek modelAead witProvider w2 = .ok (List.replicate 32 5) ∧
      w1.nonce ≠ w2.nonce ∧ w1.ciphertext ≠ w2.ciphertext :=
  C5_wrap_unwrap modelAead witProvider (List.replicate 32 5)
    (List.replicate 12 1) (List.replicate 12 2) (List.replicate 32 0xAA)
    "kek-v1" (by decide) rfl (by decide) (by decide) (by decide) (by decide)
    (by decide)

theorem alLookup_alInsert {α : Type} (k k' : String) (v : α)
    (l : List (String × α)) :
    alLookup k (alInsert k' v l) = if k' = k then some v else alLookup k l := by
  induction l with
  | nil => simp [alLookup, alInsert]
  | cons hd tl ih =>
    obtain ⟨k0, v0⟩ := hd
    simp only [alInsert]
    by_cases h0 : k0 = k'
    · subst h0
      simp only [if_pos rfl, alLookup]
      by_cases h1 : k0 = k <;> simp [h1, alLookup]
    · simp only [if_neg h0, alLookup, ih]
      by_cases h1 : k0 = k
      · subst h1
        rw [if_pos rfl, if_neg (fun h => h0 h.symm), if_pos rfl]
      · simp only [if_neg h1]

/-- C3 (amended): for a scope absent from both the cache and the persisted
mirror, when wrapping succeeds `dek_for` returns the freshly generated DEK
and inserts it into the persisted mirror and the cache REGARDLESS of the
sidecar write outcome: `flush` discards the `std::fs::write` result, so a
failed write (`writeOk = false`) behaves exactly like a successful one
instead of producing an error. -/
theorem C3_dek_for_ignores_write_failure (A : AEAD) (prov : KmsProvider)
    (freshDek nonce kek : List Nat) (kid : String) (st : KeyringState)
    (key : String)
    (hc : alLookup key st.cache = none)
    (hp : alLookup key st.persisted = none)
    (hk : prov.get_kek = some (kid, kek)) (hkl : kek.length = 32) :
    ∀ writeOk, dek_for A prov freshDek nonce writeOk st key
        = .ok (freshDek,
          { st with
            cache := alInsert key freshDek st.cache,
            persisted := alInsert key ⟨A.enc kek nonce freshDek, nonce, kid⟩
              st.persisted }) ∧
      alLookup key (alInsert key freshDek st.cache) = some freshDek ∧
      dek_for A prov freshDek nonce false st key
        = dek_for A prov freshDek nonce true st key := by
  intro writeOk
  refine ⟨?_, ?_, rfl⟩
  · simp only [dek_for, hc, hp,
      wrap_dek_ok A prov freshDek nonce kek kid hk hkl]
  · rw [alLookup_alInsert, if_pos rfl]

/-- Counterexample to C3 as stated: on a fresh keyring bound to a sidecar
path, with the sidecar write failing (`writeOk = false`), `dek_for` for the
new scope "db" still returns Ok with the new DEK, which is inserted into the
cache (and the persisted mirror) — it does not return an error. -/
theorem C3_counterexample :
    dek_for modelAead witProvider (List.replicate 32 5) (List.replicate 12 1)
        false ⟨[], [], some "mydb.evfs-keyring"⟩ "db"
      = .ok (List.replicate 32 5,
          ⟨[("db", List.replicate 32 5)],
           [("db", ⟨modelEnc (List.replicate 32 0xAA) (List.replicate 12 1)
              (List.replicate 32 5), List.replicate 12 1, "kek-v1"⟩)],
           some "mydb.evfs-keyring"⟩) ∧
    alLookup "db" [("db", List.replicate 32 5)]
      = some (List.replicate 32 5) := by
  exact ⟨rfl, rfl⟩

/-- Witness for C3 (amended) at a concrete input. -/
theorem C3_dek_for_ignores_write_failure_witness :
    dek_for modelAead witProvider (List.replicate 32 5) (List.replicate 12 1)
        false ⟨[], [], some "mydb.evfs-keyring"⟩ "db"
      = .ok (List.replicate 32 5,
          { cache := alInsert "db" (List.replicate 32 5) [],
            persisted := alInsert "db"
              ⟨modelAead.enc (List.replicate 32 0xAA) (List.replicate 12 1)
                (List.replicate 32 5), List.replicate 12 1, "kek-v1"⟩ [],
            sidecar_path := some "mydb.evfs-keyring" }) ∧
    alLookup "db" (alInsert "db" (List.replicate 32 5) [])
      = some (List.replicate 32 5) ∧
    dek_for modelAead witProvider (List.replicate 32 5) (List.replicate 12 1)
        false ⟨[], [], some "mydb.evfs-keyring"⟩ "db"
      = dek_for modelAead witProvider (List.replicate 32 5)
        (List.replicate 12 1) true ⟨[], [], some "mydb.evfs-keyring"⟩ "db" :=
  C3_dek_for_ignores_write_failure modelAead witProvider (List.replicate 32 5)
    (List.replicate 12 1) (List.replicate 32 0xAA) "kek-v1"
    ⟨[], [], some "mydb.evfs-keyring"⟩ "db" rfl rfl rfl (by decide) false

/-- C8: `dek_for_page` returns exactly what `dek_for` returns on the scope
found in the page→scope map, and falls back to the `Database` scope when the
map is absent or has no entry for the page. -/
theorem C8_dek_for_page_resolution (A : AEAD) (prov : KmsProvider)
    (freshDek nonce : List Nat) (writeOk : Bool) (st : KeyringState)
    (page_no : Nat) (map : Option (List (Nat × KeyScope))) :
    (∀ m scope, map = some m → natLookup page_no m = some scope →
      dek_for_page A prov freshDek nonce writeOk st page_no map
        = dek_for A prov freshDek nonce writeOk st scope.toKey) ∧
    ((map = none ∨ ∃ m, map = some m ∧ natLookup page_no m = none) →
      dek_for_page A prov freshDek nonce writeOk st page_no map
        = dek_for A prov freshDek nonce writeOk st
            KeyScope.Database.toKey) := by
  constructor
  · rintro m scope rfl hl
    simp [dek_for_page, hl]
  · rintro (rfl | ⟨m, rfl, hl⟩)
    · simp [dek_for_page]
    · simp [dek_for_page, hl]

/-- Witness for C8 at concrete inputs: page 42 mapped to `Table "users"`,
and page 7 with no map. -/
theorem C8_dek_for_page_resolution_witness :
    (dek_for_page modelAead witProvider (List.replicate 32 5)
        (List.replicate 12 1) true ⟨[], [], none⟩ 42
        (some [(42, KeyScope.Table "users")])
      = dek_for modelAead witProvider (List.replicate 32 5)
        (List.replicate 12 1) true ⟨[], [], none⟩
        (KeyScope.Table "users").toKey) ∧
    (dek_for_page modelAead witProvider (List.replicate 32 5)
        (List.replicate 12 1) true ⟨[], [], none⟩ 7 none
      = dek_for modelAead witProvider (List.replicate 32 5)
        (List.replicate 12 1) true ⟨[], [], none⟩
        KeyScope.Database.toKey) :=
  ⟨(C8_dek_for_page_resolution modelAead witProvider (List.replicate 32 5)
      (List.replicate 12 1) true ⟨[], [], none⟩ 42
      (some [(42, KeyScope.Table "users")])).1
      [(42, KeyScope.Table "users")] (KeyScope.Table "users") rfl (by decide),
   (C8_dek_for_page_resolution modelAead witProvider (List.replicate 32 5)
      (List.replicate 12 1) true ⟨[], [], none⟩ 7 none).2 (Or.inl rfl)⟩

theorem dek_for_preserves_covered (A : AEAD) (prov : KmsProvider)
    (freshDek nonce : List Nat) (writeOk : Bool) (st : KeyringState)
    (key : String) (d : List Nat) (st' : KeyringState)
    (h : dek_for A prov freshDek nonce writeOk st key = .ok (d, st'))
    (hcov : cacheCovered st) : cacheCovered st' := by
  simp only [dek_for] at h
  split at h
  · simp only [Except.ok.injEq, Prod.mk.injEq] at h
    obtain ⟨-, rfl⟩ := h
    exact hcov
  · split at h
    · rename_i w hpers
      split at h
      · exact absurd h (by simp)
      · simp only [Except.ok.injEq, Prod.mk.injEq] at h
        obtain ⟨-, rfl⟩ := h
        intro k hk
        simp only [alLookup_alInsert] at hk
        by_cases hkey : key = k
        · subst hkey
          rw [hpers]
          rfl
        · rw [if_neg hkey] at hk
          exact hcov k hk
    · split at h
      · exact absurd h (by simp)
      · simp only [Except.ok.injEq, Prod.mk.injEq] at h
        obtain ⟨-, rfl⟩ := h
        intro k hk
        simp only [alLookup_alInsert] at hk ⊢
        by_cases hkey : key = k
        · rw [if_pos hkey]
          rfl
        · rw [if_neg hkey] at hk ⊢
          exact hcov k hk

theorem rewrapLoop_lookup_mono (A : AEAD) (prov : KmsProvider)
    (nonceAt : Nat → List Nat) :
    ∀ (cache : List (String × List Nat)) (i : Nat)
      (pers : List (String × WrappedDek)) (k : String),
      (alLookup k pers).isSome = true →
      (alLookup k (rewrapLoop A prov nonceAt cache i pers).1).isSome = true := by
  intro cache
  induction cache with
  | nil => intro i pers k h; simpa [rewrapLoop] using h
  | cons hd rest ih =>
    intro i pers k h
    obtain ⟨k0, d0⟩ := hd
    simp only [rewrapLoop]
    cases hw : wrap_dek A prov d0 (nonceAt i) with
    | error e => simpa using h
    | ok w =>
      apply ih
      rw [alLookup_alInsert]
      by_cases hkey : k0 = k
      · rw [if_pos hkey]; rfl
      · rw [if_neg hkey]; exact h

theorem kstep_preserves_covered (A : AEAD) (prov : KmsProvider)
    (st : KeyringState) (op : KOp) (hcov : cacheCovered st)
    (hop : goodOp st op) : cacheCovered (kstep A prov st op) := by
  cases op with
  | dekFor key freshDek nonce writeOk =>
    simp only [kstep]
    cases h : dek_for A prov freshDek nonce writeOk st key with
    | error e => exact hcov
    | ok p =>
      obtain ⟨d, st'⟩ := p
      exact dek_for_preserves_covered A prov freshDek nonce writeOk st key
        d st' h hcov
  | dekForPage page_no map freshDek nonce writeOk =>
    simp only [kstep, dek_for_page]
    cases h : dek_for A prov freshDek nonce writeOk st
        (((map.bind fun m => natLookup page_no m).getD KeyScope.Database).toKey) with
    | error e => exact hcov
    | ok p =>
      obtain ⟨d, st'⟩ := p
      exact dek_for_preserves_covered A prov freshDek nonce writeOk st _
        d st' h hcov
  | rewrapAll nonceAt writeOk =>
    intro k hk
    simp only [kstep] at hk ⊢
    exact rewrapLoop_lookup_mono A prov nonceAt st.cache 0 st.persisted k
      (hcov k hk)
  | setSidecarPath sidecar loaded =>
    intro k hk
    simp only [kstep, set_sidecar_path] at hk ⊢
    cases loaded with
    | none => exact hcov k hk
    | some m => exact hop m rfl k hk

/-- C6 (amended): from any state satisfying the invariant "every cached scope
has a wrapped entry in the persisted mirror", the invariant is preserved by
any sequence of `dek_for`, `dek_for_page` and `rewrap_all` operations, and by
`set_sidecar_path` operations whose loaded sidecar (when one loads) covers
the scopes cached at that moment.  An unrestricted `set_sidecar_path` breaks
it: see the counterexample, where loading a sidecar replaces the persisted
mirror while the cache keeps its entries. -/
theorem C6_cache_covered_invariant (A : AEAD) (prov : KmsProvider)
    (st : KeyringState) (ops : List KOp) (h0 : cacheCovered st)
    (hg : GoodTrace A prov st ops) :
    cacheCovered (kexec A prov st ops) := by
  induction hg with
  | nil st => exact h0
  | cons st op ops hop _ ih =>
    exact ih (kstep_preserves_covered A prov st op h0 hop)

/-- Counterexample to C6 as stated: the state reached from a fresh keyring by
`dek_for "db"` followed by `set_sidecar_path` loading an (empty) existing
sidecar violates the invariant — "db" is cached but the persisted mirror was
replaced by the loaded (empty) mapping. -/
theorem C6_counterexample :
    ¬ cacheCovered (kexec modelAead witProvider ⟨[], [], none⟩
      [KOp.dekFor "db" (List.replicate 32 5) (List.replicate 12 1) true,
       KOp.setSidecarPath "mydb.evfs-keyring" (some [])]) := by
  intro h
  exact absurd (h "db" (by decide)) (by decide)

/-- Witness for C6 (amended): a concrete good trace — `dek_for "db"` then a
`set_sidecar_path` that loads nothing — keeps the invariant. -/
theorem C6_cache_covered_invariant_witness :
    cacheCovered (kexec modelAead witProvider ⟨[], [], none⟩
      [KOp.dekFor "db" (List.replicate 32 5) (List.replicate 12 1) false,
       KOp.setSidecarPath "mydb.evfs-keyring" none]) :=
  C6_cache_covered_invariant modelAead witProvider ⟨[], [], none⟩
    [KOp.dekFor "db" (List.replicate 32 5) (List.replicate 12 1) false,
     KOp.setSidecarPath "mydb.evfs-keyring" none]
    (fun k h => by simp [alLookup] at h)
    (.cons _ _ _ trivial (.cons _ _ _
      (fun m hm => by cases hm) (.nil _)))

theorem rewrapLoop_lookup_notin (A : AEAD) (prov : KmsProvider)
    (nonceAt : Nat → List Nat) :
    ∀ (cache : List (String × List Nat)) (i : Nat)
      (pers : List (String × WrappedDek)) (k : String),
      k ∉ cache.map Prod.fst →
      alLookup k (rewrapLoop A prov nonceAt cache i pers).1
        = alLookup k pers := by
  intro cache
  induction cache with
  | nil => intro i pers k _; rfl
  | cons hd rest ih =>
    intro i pers k hk
    obtain ⟨k0, d0⟩ := hd
    simp only [List.map_cons, List.mem_cons, not_or] at hk
    simp only [rewrapLoop]
    cases hw : wrap_dek A prov d0 (nonceAt i) with
    | error e => rfl
    | ok w =>
      rw [ih (i + 1) (alInsert k0 w pers) k hk.2, alLookup_alInsert,
        if_neg (fun h => hk.1 h.symm)]

theorem rewrapLoop_spec (A : AEAD) (prov : KmsProvider)
    (nonceAt : Nat → List Nat) (kek : List Nat) (kid : String)
    (hk : prov.get_kek = some (kid, kek)) (hkl : kek.length = 32)
    (hki : prov.get_kek_by_id kid = some kek) :
    ∀ (cache : List (String × List Nat)) (i : Nat)
      (pers : List (String × WrappedDek)),
      (cache.map Prod.fst).Nodup →
      (∀ p ∈ cache, (Prod.snd p).length = 32) →
      ∀ k d, alLookup k cache = some d →
        ∃ w, alLookup k (rewrapLoop A prov nonceAt cache i pers).1 = some w ∧
          unwrap_dek A prov w = .ok d := by
  intro cache
  induction cache with
  | nil => intro i pers _ _ k d h; exact absurd h (by simp [alLookup])
  | cons hd rest ih =>
    intro i pers hnd hlen k d hkd
    obtain ⟨k0, d0⟩ := hd
    rw [List.map_cons, List.nodup_cons] at hnd
    simp only [rewrapLoop, wrap_dek_ok A prov d0 (nonceAt i) kek kid hk hkl]
    by_cases hkey : k0 = k
    · subst hkey
      have hd0 : d0 = d := by
        simp only [alLookup, if_true, eq_self_iff_true] at hkd
        exact Option.some.inj hkd
      subst hd0
      refine ⟨⟨A.enc kek (nonceAt i) d0, nonceAt i, kid⟩, ?_, ?_⟩
      · rw [rewrapLoop_lookup_notin A prov nonceAt rest (i + 1) _ k0 hnd.1,
          alLookup_alInsert, if_pos rfl]
      · exact unwrap_wrap A prov d0 (nonceAt i) kek kid hkl hki
          (hlen (k0, d0) (List.mem_cons_self _ _))
    · have hrest : alLookup k rest = some d := by
        simp only [alLookup, if_neg hkey] at hkd
        exact hkd
      exact ih (i + 1) (alInsert k0 _ pers) hnd.2
        (fun p hp => hlen p (List.mem_cons_of_mem _ hp)) k d hrest

/-- C9: when `rewrap_all` succeeds, the plaintext DEK cache is byte-for-byte
unchanged, and every cached scope has a wrapped entry in the persisted mirror
that unwraps (via the same provider) to exactly its unchanged DEK.  Stated
for cache association lists with distinct keys (a `HashMap` guarantees this)
and 32-byte DEKs, under a provider that consistently serves one 32-byte
KEK. -/
theorem C9_rewrap_preserves_deks (A : AEAD) (prov : KmsProvider)
    (nonceAt : Nat → List Nat) (writeOk : Bool) (st st' : KeyringState)
    (kek : List Nat) (kid : String)
    (hok : rewrap_all A prov nonceAt writeOk st = .ok st')
    (hnd : (st.cache.map Prod.fst).Nodup)
    (hlen : ∀ p ∈ st.cache, (Prod.snd p).length = 32)
    (hk : prov.get_kek = some (kid, kek)) (hkl : kek.length = 32)
    (hki : prov.get_kek_by_id kid = some kek) :
    st'.cache = st.cache ∧
    ∀ k d, alLookup k st.cache = some d →
      ∃ w, alLookup k st'.persisted = some w ∧
        unwrap_dek A prov w = .ok d := by
  simp only [rewrap_all] at hok
  split at hok
  · exact absurd hok (by simp)
  · rename_i pers hloop
    simp only [Except.ok.injEq] at hok
    subst hok
    refine ⟨rfl, ?_⟩
    intro k d hkd
    have hspec := rewrapLoop_spec A prov nonceAt kek kid hk hkl hki
      st.cache 0 st.persisted hnd hlen k d hkd
    rw [hloop] at hspec
    exact hspec

/-- Witness for C9 at a concrete input: one cached scope "db" with a 32-byte
DEK, empty persisted mirror; after `rewrap_all` the persisted entry unwraps
to the unchanged DEK. -/
theorem C9_rewrap_preserves_deks_witness :
    (KeyringState.mk [("db", List.replicate 32 5)]
        [("db", WrappedDek.mk (modelEnc (List.replicate 32 0xAA)
          (List.replicate 12 9) (List.replicate 32 5))
          (List.replicate 12 9) "kek-v1")] none).cache
      = (KeyringState.mk [("db", List.replicate 32 5)] [] none).cache ∧
    ∃ w, alLookup "db" (KeyringState.mk [("db", List.replicate 32 5)]
        [("db", WrappedDek.mk (modelEnc (List.replicate 32 0xAA)
          (List.replicate 12 9) (List.replicate 32 5))
          (List.replicate 12 9) "kek-v1")] none).persisted = some w ∧
      unwrap_dek modelAead witProvider w = .ok (List.replicate 32 5) := by
  have hmain := C9_rewrap_preserves_deks modelAead witProvider
    (fun _ => List.replicate 12 9) true
    (KeyringState.mk [("db", List.replicate 32 5)] [] none)
    (KeyringState.mk [("db", List.replicate 32 5)]
      [("db", WrappedDek.mk (modelEnc (List.replicate 32 0xAA)
        (List.replicate 12 9) (List.replicate 32 5))
        (List.replicate 12 9) "kek-v1")] none)
    (List.replicate 32 0xAA) "kek-v1" rfl (by decide) (by decide)
    rfl (by decide) (by decide)
  exact ⟨hmain.1, hmain.2 "db" (List.replicate 32 5) rfl⟩
